import Mathlib

/-!
Verification development for the EPL injury/performance feature-derivation core
(feature_engineering.py and stats_analysis.py). Dates are embedded as integers
(days), calendar dates for season labelling as (year, month) pairs, and numeric
match statistics as rationals. Nullable values are Option.
-/

/-- Mean of a list of rationals; none on the empty list (pandas mean of an
empty or all-missing series is NaN). -/
def listMean (xs : List ℚ) : Option ℚ :=
  if xs.isEmpty then none else some (xs.sum / xs.length)

/-- Mean that skips missing values, as pandas Series.mean does: the mean of
the present values, none when every value is missing. -/
def meanSomes (xs : List (Option ℚ)) : Option ℚ :=
  listMean (xs.filterMap id)

/-- The last n elements of a list, as pandas DataFrame.tail. -/
def listTail (n : ℕ) (l : List α) : List α :=
  l.drop (l.length - n)

/-- First-occurrence deduplication by a key, as pandas drop_duplicates with
the default keep-first policy: keeps the first row of every key class, in
input order. -/
def pdDropDuplicatesBy [DecidableEq β] (key : α → β) : List α → List α
  | [] => []
  | x :: xs => x :: (pdDropDuplicatesBy key xs).filter (fun y => decide (key y ≠ key x))

/-- Calendar date reduced to the fields the season labeler reads. -/
structure SDate where
  year : ℤ
  month : ℕ
deriving DecidableEq, Repr

/-- Season labeler from feature_engineering.py (get_season): August or later
maps to year/year+1, earlier months to year-1/year; a missing date propagates
as missing. -/
def get_season : Option SDate → Option String
  | none => none
  | some d =>
      if 8 ≤ d.month then some (toString d.year ++ "/" ++ toString (d.year + 1))
      else some (toString (d.year - 1) ++ "/" ++ toString d.year)

/-- The three event-period labels. -/
inductive EventPeriod where
  | pre
  | during
  | post
deriving DecidableEq, Repr

/-- The fields of a merged row read by the event-period classifier. -/
structure EventRow where
  date : Option ℤ
  injured_since : Option ℤ
  injured_until : Option ℤ
deriving DecidableEq, Repr

/-- Event-period classifier from feature_engineering.py (get_event_period):
missing date or either missing injury bound gives a missing label; otherwise
pre when the match is before the injury start, during when between the bounds
inclusive, post otherwise. -/
def get_event_period (row : EventRow) : Option EventPeriod :=
  match row.date, row.injured_since, row.injured_until with
  | some d, some s, some e =>
      if d < s then some EventPeriod.pre
      else if s ≤ d ∧ d ≤ e then some EventPeriod.during
      else some EventPeriod.post
  | _, _, _ => none

/-- One match-participation row after upstream cleaning: player key, match
date, and the numeric statistics (already coerced, missing filled with 0). -/
structure MatchRow where
  player : String
  date : ℤ
  minutes_played : ℚ
  goals : ℚ
  assists : ℚ
deriving DecidableEq, Repr

/-- The sort key order used by sort_values on (player_name_clean, date). -/
def rowLe (a b : MatchRow) : Prop :=
  a.player.data < b.player.data ∨ (a.player = b.player ∧ a.date ≤ b.date)

instance : DecidableRel rowLe := fun a b => by
  unfold rowLe; infer_instance

instance : IsTotal MatchRow rowLe where
  total a b := by
    rcases lt_trichotomy a.player.data b.player.data with h | h | h
    · exact Or.inl (Or.inl h)
    · rcases le_total a.date b.date with hd | hd
      · exact Or.inl (Or.inr ⟨String.ext h, hd⟩)
      · exact Or.inr (Or.inr ⟨(String.ext h).symm, hd⟩)
    · exact Or.inr (Or.inl h)

instance : IsTrans MatchRow rowLe where
  trans a b c hab hbc := by
    rcases hab with h1 | ⟨h1, d1⟩
    · rcases hbc with h2 | ⟨h2, _⟩
      · exact Or.inl (h1.trans h2)
      · exact Or.inl (h2 ▸ h1)
    · rcases hbc with h2 | ⟨h2, d2⟩
      · exact Or.inl (h1 ▸ h2)
      · exact Or.inr ⟨h1.trans h2, d1.trans d2⟩

/-- The dataframe sorted by (player_name_clean, date), as in
df_filtered.sort_values. -/
def sortedRows (rows : List MatchRow) : List MatchRow :=
  List.insertionSort rowLe rows

/-- The rows of one player group, in the order the sorted dataframe presents
them to the groupby transform. -/
def playerSeries (rows : List MatchRow) (p : String) : List MatchRow :=
  (sortedRows rows).filter (fun r => decide (r.player = p))

/-- The pandas rolling window of width 5 and min_periods 1 at position i:
the up to five entries ending at and including position i. -/
def rollingWindow (xs : List ℚ) (i : ℕ) : List ℚ :=
  (xs.take (i + 1)).drop (i + 1 - 5)

/-- The minutes_workload_last5 column value at position i of one player
series: rolling(window=5, min_periods=1).mean() of minutes_played. -/
def minutes_workload_last5 (xs : List ℚ) (i : ℕ) : Option ℚ :=
  listMean (rollingWindow xs i)

/-- Sample variance (delta degrees of freedom 1), none for fewer than two
entries. The source computes the sample standard deviation, the square root
of this value; the square root of a rational is not in general rational, so
the development tracks the variance, whose nullability and value determine
the standard deviation exactly. -/
def sampleVar (w : List ℚ) : Option ℚ :=
  if w.length < 2 then none
  else
    some (((w.map (fun x => (x - w.sum / w.length) ^ 2)).sum) / ((w.length : ℚ) - 1))

/-- The form_consistency_last5 column value at position i of one player
series: rolling(window=5, min_periods=1).std() of minutes_played, tracked as
its square (the sample variance); pandas std of a single-entry window is NaN
because the ddof-1 denominator is zero. -/
def form_consistency_last5 (xs : List ℚ) (i : ℕ) : Option ℚ :=
  sampleVar (rollingWindow xs i)

/-- The minutes_played sequence of one player group, in group order. -/
def playerMinutes (rows : List MatchRow) (p : String) : List ℚ :=
  (playerSeries rows p).map (fun r => r.minutes_played)

/-- The minutes_workload_last5 column restricted to one player group. -/
def workload_series (rows : List MatchRow) (p : String) : List (Option ℚ) :=
  (List.range (playerMinutes rows p).length).map
    (fun i => minutes_workload_last5 (playerMinutes rows p) i)

/-- The form_consistency_last5 column restricted to one player group. -/
def consistency_series (rows : List MatchRow) (p : String) : List (Option ℚ) :=
  (List.range (playerMinutes rows p).length).map
    (fun i => form_consistency_last5 (playerMinutes rows p) i)

/-- Modelled from the spec: the window of up to the last 5 matches strictly
prior to position i, excluding the anchor itself, as the words of the
rolling-feature contract describe it. Kept separate from rollingWindow,
which embeds what the source computes, so the two can be compared. -/
def specPriorWindow (xs : List ℚ) (i : ℕ) : List ℚ :=
  (xs.take i).drop (i - 5)

/-- An input row to the matches-table construction in stats_analysis.py:
player key and date may be missing (dropped by dropna), the numeric columns
are already coerced with missing filled by 0. -/
structure RawMatchRow where
  player_name_clean : Option String
  date : Option ℤ
  minutes_played : ℚ
  goals : ℚ
  assists : ℚ
deriving DecidableEq, Repr

/-- The matches table of stats_analysis.py: dropna on player and date,
drop_duplicates on the (player, date) pair keeping the first row, then
sort_values on (player, date). -/
def buildMatches (raws : List RawMatchRow) : List MatchRow :=
  List.insertionSort rowLe
    (pdDropDuplicatesBy (fun r => (r.player, r.date))
      (raws.filterMap (fun r =>
        match r.player_name_clean, r.date with
        | some p, some d => some ⟨p, d, r.minutes_played, r.goals, r.assists⟩
        | _, _ => none)))

/-- Per-90-minute rate from stats_analysis.py (rate_per90): nonpositive
minutes are replaced by NaN before dividing, so the rate is missing rather
than a division by zero or a substituted zero. -/
def rate_per90 (numer mins : ℚ) : Option ℚ :=
  if mins ≤ 0 then none else some (numer / mins * 90)

/-- The aggregate a window block is reduced to by agg in stats_analysis.py. -/
structure Agg where
  n_matches : ℕ
  minutes_mean : Option ℚ
  goals90_mean : Option ℚ
  assists90_mean : Option ℚ
deriving DecidableEq, Repr

/-- The agg helper of stats_analysis.py over a window block: row count, mean
minutes (minutes are never missing, having been filled with 0), and the
missing-skipping means of the per-90 rate columns. -/
def agg (block : List MatchRow) : Agg :=
  { n_matches := block.length
    minutes_mean := listMean (block.map (fun r => r.minutes_played))
    goals90_mean := meanSomes (block.map (fun r => rate_per90 r.goals r.minutes_played))
    assists90_mean := meanSomes (block.map (fun r => rate_per90 r.assists r.minutes_played)) }

/-- A raw injury-interval row as the episodes extraction sees it: every
selected column may be missing. -/
structure RawInjuryRow where
  player_name_clean : Option String
  player_name : Option String
  injured_since : Option ℤ
  injured_until : Option ℤ
  position_type : Option String
deriving DecidableEq, Repr

/-- One row of the episodes frame: player key and both bounds present (the
extraction drops rows missing any of them), name and position carried
along. -/
structure EpisodeRec where
  player_name_clean : String
  player_name : Option String
  injured_since : ℤ
  injured_until : ℤ
  position_type : Option String
deriving DecidableEq, Repr

/-- The sort key order used by sort_values on (player_name_clean,
injured_since). -/
def epLe (a b : EpisodeRec) : Prop :=
  a.player_name_clean.data < b.player_name_clean.data ∨
    (a.player_name_clean = b.player_name_clean ∧ a.injured_since ≤ b.injured_since)

instance : DecidableRel epLe := fun a b => by
  unfold epLe; infer_instance

instance : IsTotal EpisodeRec epLe where
  total a b := by
    rcases lt_trichotomy a.player_name_clean.data b.player_name_clean.data with h | h | h
    · exact Or.inl (Or.inl h)
    · rcases le_total a.injured_since b.injured_since with hd | hd
      · exact Or.inl (Or.inr ⟨String.ext h, hd⟩)
      · exact Or.inr (Or.inr ⟨(String.ext h).symm, hd⟩)
    · exact Or.inr (Or.inl h)

instance : IsTrans EpisodeRec epLe where
  trans a b c hab hbc := by
    rcases hab with h1 | ⟨h1, d1⟩
    · rcases hbc with h2 | ⟨h2, _⟩
      · exact Or.inl (h1.trans h2)
      · exact Or.inl (h2 ▸ h1)
    · rcases hbc with h2 | ⟨h2, d2⟩
      · exact Or.inl (h1 ▸ h2)
      · exact Or.inr ⟨h1.trans h2, d1.trans d2⟩

/-- The episodes frame of stats_analysis.py: dropna on the player key and
both injury bounds, column selection, drop_duplicates over the whole
selected row, then sort_values on (player_name_clean, injured_since). -/
def episodes (raws : List RawInjuryRow) : List EpisodeRec :=
  List.insertionSort epLe
    (pdDropDuplicatesBy id
      (raws.filterMap (fun r =>
        match r.player_name_clean, r.injured_since, r.injured_until with
        | some p, some s, some e =>
            some (⟨p, r.player_name, s, e, r.position_type⟩ : EpisodeRec)
        | _, _, _ => none)))

/-- The pm frame inside the episodes loop: the matches table restricted to
one player, in table order. -/
def playerMatches (M : List MatchRow) (p : String) : List MatchRow :=
  M.filter (fun r => decide (r.player = p))

/-- The pre block of one episode: matches of the player strictly before the
injury start, tail(5). -/
def preWindow (M : List MatchRow) (ep : EpisodeRec) : List MatchRow :=
  listTail 5 ((playerMatches M ep.player_name_clean).filter
    (fun r => decide (r.date < ep.injured_since)))

/-- The post block of one episode: matches of the player strictly after the
injury end, head(5). -/
def postWindow (M : List MatchRow) (ep : EpisodeRec) : List MatchRow :=
  ((playerMatches M ep.player_name_clean).filter
    (fun r => decide (ep.injured_until < r.date))).take 5

/-- Missing-propagating subtraction for the delta columns: pandas NaN
arithmetic gives NaN when either side is NaN. -/
def optSub : Option ℚ → Option ℚ → Option ℚ
  | some a, some b => some (a - b)
  | _, _ => none

/-- One output row of the episode-level frame. -/
structure EpisodeRow where
  ep : EpisodeRec
  pre : Agg
  post : Agg
  delta_minutes_mean : Option ℚ
  delta_goals90_mean : Option ℚ
  delta_assists90_mean : Option ℚ
deriving DecidableEq, Repr

/-- One iteration of the episodes loop in stats_analysis.py: skip when the
player has no matches, build the two windows, skip when either is empty,
otherwise emit the aggregated row. -/
def processEpisode (M : List MatchRow) (ep : EpisodeRec) : Option EpisodeRow :=
  if (playerMatches M ep.player_name_clean).isEmpty then none
  else
    if (preWindow M ep).isEmpty ∨ (postWindow M ep).isEmpty then none
    else
      some { ep := ep
             pre := agg (preWindow M ep)
             post := agg (postWindow M ep)
             delta_minutes_mean :=
               optSub (agg (postWindow M ep)).minutes_mean (agg (preWindow M ep)).minutes_mean
             delta_goals90_mean :=
               optSub (agg (postWindow M ep)).goals90_mean (agg (preWindow M ep)).goals90_mean
             delta_assists90_mean :=
               optSub (agg (postWindow M ep)).assists90_mean (agg (preWindow M ep)).assists90_mean }

/-- The episode_level frame: the rows the episodes loop appends, in episode
order. -/
def episodeLevel (M : List MatchRow) (eps : List EpisodeRec) : List EpisodeRow :=
  eps.filterMap (processEpisode M)

/-- A column value in the load-compatibility model: a number, a string, or
missing. -/
inductive ColValue where
  | num (q : ℚ)
  | str (s : String)
  | null
deriving DecidableEq, Repr

/-- A dataframe reduced to what the required-column compatibility pass
reads: named columns with their value lists. -/
structure Frame where
  cols : List (String × List ColValue)
deriving DecidableEq, Repr

/-- Whether a column is present. -/
def Frame.hasCol (f : Frame) (c : String) : Bool :=
  f.cols.any (fun p => decide (p.1 = c))

/-- The row count a freshly added column is given. -/
def Frame.nRows (f : Frame) : ℕ :=
  ((f.cols.head?).map (fun p => p.2.length)).getD 0

/-- The values of a named column, when present. -/
def Frame.getCol (f : Frame) (c : String) : Option (List ColValue) :=
  (f.cols.find? (fun p => decide (p.1 = c))).map (fun p => p.2)

/-- One step of the compatibility pass: when the column is absent, append
it filled with a default value; when present, leave the frame unchanged. -/
def addMissing (v : ColValue) (acc : Frame) (c : String) : Frame :=
  if acc.hasCol c then acc
  else ⟨acc.cols ++ [(c, List.replicate acc.nRows v)]⟩

/-- The required-column compatibility pass at the top of stats_analysis.py:
missing name columns are added filled with missing values, missing numeric
columns are added filled with 0, and the pass always succeeds; no missing
column is ever reported as an error. -/
def ensureCompatColumns (f : Frame) : Except String Frame :=
  Except.ok
    (["minutes_played", "goals", "assists"].foldl (addMissing (ColValue.num 0))
      (["player_name", "player_name_clean"].foldl (addMissing ColValue.null) f))

/-- Rates in a mapped column, with the missing entries dropped as pandas
mean does, are exactly the positive-minutes rows mapped through the rate
formula. -/
theorem filterMap_rate_column (f : MatchRow → ℚ) (block : List MatchRow) :
    ((block.map (fun r => rate_per90 (f r) r.minutes_played)).filterMap id) =
      (block.filter (fun r => decide (0 < r.minutes_played))).map
        (fun r => f r / r.minutes_played * 90) := by
  induction block with
  | nil => rfl
  | cons r rest ih =>
    by_cases h : r.minutes_played ≤ 0
    · have h2 : (decide (0 < r.minutes_played)) = false := by
        simp [not_lt.mpr h]
      simp only [List.map_cons, List.filterMap_cons, rate_per90, if_pos h, List.filter_cons, h2,
        Bool.false_eq_true, if_false]
      simp only [rate_per90] at ih
      exact ih
    · have h2 : (decide (0 < r.minutes_played)) = true := by
        simp [not_le.mp h]
      simp only [List.map_cons, List.filterMap_cons, rate_per90, if_neg h, List.filter_cons, h2,
        if_true, id]
      simp only [rate_per90] at ih
      rw [ih]

/-- C5: the season labeler maps any date with month August or later to the
season year/year+1, any date with month July or earlier to year-1/year, and
a missing date to a missing season rather than an error. -/
theorem get_season_claim (d : SDate) :
    (8 ≤ d.month → get_season (some d) = some (toString d.year ++ "/" ++ toString (d.year + 1))) ∧
    (d.month ≤ 7 → get_season (some d) = some (toString (d.year - 1) ++ "/" ++ toString d.year)) ∧
    get_season none = none := by
  refine ⟨fun h => ?_, fun h => ?_, rfl⟩
  · simp [get_season, h]
  · have h8 : ¬ 8 ≤ d.month := by omega
    simp [get_season, h8]

/-- Witness for get_season_claim at September 2021 and March 2021. -/
theorem get_season_claim_witness :
    get_season (some ⟨2021, 9⟩) = some "2021/2022" ∧
    get_season (some ⟨2021, 3⟩) = some "2020/2021" := by
  constructor
  · have h := (get_season_claim ⟨2021, 9⟩).1 (by norm_num)
    rw [h]
    rfl
  · have h := (get_season_claim ⟨2021, 3⟩).2.1 (by norm_num)
    rw [h]
    rfl

/-- C1: the event-period label is missing whenever the match date or either
injury bound is missing; otherwise exactly one label is assigned: during
exactly when the date lies between the bounds inclusive of both endpoints,
pre exactly when the date strictly precedes the injury start, and post in
every remaining case. -/
theorem get_event_period_claim (row : EventRow) :
    ((row.date = none ∨ row.injured_since = none ∨ row.injured_until = none) →
      get_event_period row = none) ∧
    (∀ d s e, row.date = some d → row.injured_since = some s → row.injured_until = some e →
      (∃ x, get_event_period row = some x) ∧
      (get_event_period row = some EventPeriod.during ↔ s ≤ d ∧ d ≤ e) ∧
      (get_event_period row = some EventPeriod.pre ↔ d < s) ∧
      (get_event_period row = some EventPeriod.post ↔ ¬ d < s ∧ ¬ (s ≤ d ∧ d ≤ e))) := by
  obtain ⟨od, os, oe⟩ := row
  constructor
  · rintro (h | h | h) <;> subst h
    · cases os <;> cases oe <;> rfl
    · cases od <;> cases oe <;> rfl
    · cases od <;> cases os <;> rfl
  · rintro d s e rfl rfl rfl
    refine ⟨?_, ?_, ?_, ?_⟩ <;>
      simp only [get_event_period] <;>
      split_ifs with h1 h2 <;>
      simp <;> omega

/-- Witness for get_event_period_claim: a date inside the bounds is labeled
during, and a missing date yields a missing label. -/
theorem get_event_period_claim_witness :
    get_event_period ⟨some 4, some 3, some 6⟩ = some EventPeriod.during ∧
    get_event_period ⟨none, some 3, some 6⟩ = none := by
  constructor
  · exact ((get_event_period_claim ⟨some 4, some 3, some 6⟩).2 4 3 6 rfl rfl rfl).2.1.mpr
      (by omega)
  · exact (get_event_period_claim ⟨none, some 3, some 6⟩).1 (Or.inl rfl)

/-- C3: the per-90 rate of a single match is count over minutes times 90
when minutes are positive, and missing, never zero, when minutes are
nonpositive, so the guarded division never divides by zero; in the window
aggregate the missing rates are dropped from the mean, which runs over
exactly the positive-minutes rows; and 45 minutes with one goal rate
exactly 2 goals per 90. -/
theorem rate_per90_claim (numer mins : ℚ) :
    (0 < mins → rate_per90 numer mins = some (numer / mins * 90)) ∧
    (mins ≤ 0 → rate_per90 numer mins = none) ∧
    rate_per90 1 45 = some 2 ∧
    (∀ block : List MatchRow,
      (agg block).goals90_mean =
        listMean ((block.filter (fun r => decide (0 < r.minutes_played))).map
          (fun r => r.goals / r.minutes_played * 90)) ∧
      (agg block).assists90_mean =
        listMean ((block.filter (fun r => decide (0 < r.minutes_played))).map
          (fun r => r.assists / r.minutes_played * 90))) := by
  refine ⟨fun h => ?_, fun h => ?_, ?_, fun block => ⟨?_, ?_⟩⟩
  · rw [rate_per90, if_neg (not_le.mpr h)]
  · rw [rate_per90, if_pos h]
  · rw [rate_per90, if_neg (by norm_num)]
    norm_num
  · show meanSomes _ = _
    rw [meanSomes, filterMap_rate_column (fun r => r.goals)]
  · show meanSomes _ = _
    rw [meanSomes, filterMap_rate_column (fun r => r.assists)]

/-- Witness for rate_per90_claim: the 45-minute one-goal example and a
zero-minute match. -/
theorem rate_per90_claim_witness :
    rate_per90 (1 : ℚ) 45 = some 2 ∧ rate_per90 (3 : ℚ) 0 = none :=
  ⟨(rate_per90_claim 1 45).2.2.1, (rate_per90_claim 3 0).2.1 le_rfl⟩

/-- The source rolling window rewritten as the last up to five entries of
the prefix ending at the anchor position. -/
theorem rollingWindow_eq_reverseTake (xs : List ℚ) (i : ℕ) (hi : i < xs.length) :
    rollingWindow xs i = ((xs.take (i + 1)).reverse.take 5).reverse := by
  unfold rollingWindow
  rw [List.take_reverse, List.reverse_reverse, List.length_take]
  congr 1
  omega

/-- Length of the source rolling window at a valid position. -/
theorem rollingWindow_length (xs : List ℚ) (i : ℕ) (hi : i < xs.length) :
    (rollingWindow xs i).length = min (i + 1) 5 := by
  unfold rollingWindow
  rw [List.length_drop, List.length_take]
  omega

/-- The last entry of the source rolling window is the anchor entry
itself. -/
theorem rollingWindow_getLast (xs : List ℚ) (i : ℕ) (hi : i < xs.length) :
    (rollingWindow xs i).getLast? = xs[i]? := by
  rw [List.getLast?_eq_getElem? _, rollingWindow_length xs i hi]
  unfold rollingWindow
  rw [List.getElem?_drop]
  rw [show i + 1 - 5 + (min (i + 1) 5 - 1) = i by omega]
  rw [List.getElem?_take]
  rw [if_pos (Nat.lt_succ_self i)]

/-- Reading one entry of the workload column of a player group. -/
theorem workload_series_getElem (rows : List MatchRow) (p : String) (i : ℕ)
    (hi : i < (playerMinutes rows p).length) :
    (workload_series rows p)[i]? = some (minutes_workload_last5 (playerMinutes rows p) i) := by
  unfold workload_series
  rw [List.getElem?_map, List.getElem?_range hi]
  rfl

/-- C4 counterexample: a player with two matches of 90 then 0 minutes. The
mean over the window of matches strictly prior to the second match is 90,
but the code assigns the second match a workload of 45, the mean of a
window that includes the anchor match itself; and at the first match the
strictly-prior window is empty, not of size 1. -/
theorem workload_last5_not_prior_window_cex :
    workload_series [⟨"a", 1, 90, 0, 0⟩, ⟨"a", 2, 0, 0, 0⟩] "a" = [some 90, some 45] ∧
    listMean (specPriorWindow (playerMinutes [⟨"a", 1, 90, 0, 0⟩, ⟨"a", 2, 0, 0, 0⟩] "a") 1) =
      some 90 ∧
    some (45 : ℚ) ≠ some (90 : ℚ) ∧
    specPriorWindow (playerMinutes [⟨"a", 1, 90, 0, 0⟩, ⟨"a", 2, 0, 0, 0⟩] "a") 0 = [] := by
  have hpm : playerMinutes [⟨"a", 1, 90, 0, 0⟩, ⟨"a", 2, 0, 0, 0⟩] "a" = [90, 0] := by
    decide
  refine ⟨?_, ?_, by norm_num, ?_⟩
  · unfold workload_series
    rw [hpm]
    norm_num [minutes_workload_last5, rollingWindow, listMean, List.range_succ]
  · rw [hpm]
    norm_num [specPriorWindow, listMean]
  · rw [hpm]
    rfl

/-- C4 amended: workload_last5 is the arithmetic mean of minutes_played
over the window of up to the last 5 matches of the player ending at and
including the anchor record itself (the rolling window is anchored at the
current row, not at the previous one), and for the first match of a player
that window is the anchor alone, so workload_last5 equals that single
match minutes value. -/
theorem workload_last5_amended (rows : List MatchRow) (p : String) (i : ℕ)
    (hi : i < (playerMinutes rows p).length) :
    (workload_series rows p)[i]? =
      some (listMean ((((playerMinutes rows p).take (i + 1)).reverse.take 5).reverse)) ∧
    (rollingWindow (playerMinutes rows p) i).length = min (i + 1) 5 ∧
    (rollingWindow (playerMinutes rows p) i).getLast? = (playerMinutes rows p)[i]? ∧
    (0 < (playerMinutes rows p).length →
      (workload_series rows p)[0]? = some (some ((playerMinutes rows p).headI))) := by
  refine ⟨?_, rollingWindow_length _ i hi, rollingWindow_getLast _ i hi, fun h0 => ?_⟩
  · rw [workload_series_getElem rows p i hi]
    unfold minutes_workload_last5
    rw [rollingWindow_eq_reverseTake _ i hi]
  · obtain ⟨x, t, hxt⟩ : ∃ x t, playerMinutes rows p = x :: t := by
      cases h : playerMinutes rows p with
      | nil => rw [h] at h0; simp at h0
      | cons a b => exact ⟨a, b, rfl⟩
    rw [workload_series_getElem rows p 0 (by omega), hxt]
    simp [minutes_workload_last5, rollingWindow, listMean]

/-- Witness for workload_last5_amended at a concrete two-match series. -/
theorem workload_last5_amended_witness :
    1 < (playerMinutes [⟨"a", 1, 90, 0, 0⟩, ⟨"a", 2, 0, 0, 0⟩] "a").length ∧
    ((workload_series [⟨"a", 1, 90, 0, 0⟩, ⟨"a", 2, 0, 0, 0⟩] "a")[1]? =
      some (listMean ((((playerMinutes [⟨"a", 1, 90, 0, 0⟩, ⟨"a", 2, 0, 0, 0⟩] "a").take 2).reverse.take 5).reverse)) ∧
     (rollingWindow (playerMinutes [⟨"a", 1, 90, 0, 0⟩, ⟨"a", 2, 0, 0, 0⟩] "a") 1).length = min 2 5 ∧
     (rollingWindow (playerMinutes [⟨"a", 1, 90, 0, 0⟩, ⟨"a", 2, 0, 0, 0⟩] "a") 1).getLast? =
       (playerMinutes [⟨"a", 1, 90, 0, 0⟩, ⟨"a", 2, 0, 0, 0⟩] "a")[1]? ∧
     (0 < (playerMinutes [⟨"a", 1, 90, 0, 0⟩, ⟨"a", 2, 0, 0, 0⟩] "a").length →
       (workload_series [⟨"a", 1, 90, 0, 0⟩, ⟨"a", 2, 0, 0, 0⟩] "a")[0]? =
         some (some ((playerMinutes [⟨"a", 1, 90, 0, 0⟩, ⟨"a", 2, 0, 0, 0⟩] "a").headI)))) :=
  ⟨by decide, workload_last5_amended [⟨"a", 1, 90, 0, 0⟩, ⟨"a", 2, 0, 0, 0⟩] "a" 1 (by decide)⟩

/-- Expansion of a sum of squared deviations about an arbitrary center. -/
theorem sum_sq_dev (w : List ℚ) (m : ℚ) :
    (w.map (fun x => (x - m) ^ 2)).sum =
      (w.map (fun x => x ^ 2)).sum - 2 * m * w.sum + w.length * m ^ 2 := by
  induction w with
  | nil => simp
  | cons x xs ih =>
    simp only [List.map_cons, List.sum_cons, List.length_cons, ih]
    push_cast
    ring

/-- The sample variance satisfies the computational identity
n(n-1)v = n times the sum of squares minus the squared sum. -/
theorem sampleVar_identity (w : List ℚ) (v : ℚ) (h : sampleVar w = some v) :
    v * ((w.length : ℚ) * ((w.length : ℚ) - 1)) =
      (w.length : ℚ) * (w.map (fun x => x ^ 2)).sum - w.sum ^ 2 := by
  unfold sampleVar at h
  split_ifs at h with hl
  rw [Option.some_inj] at h
  subst h
  have hn : 2 ≤ w.length := not_lt.mp hl
  have hq : (w.length : ℚ) ≠ 0 := Nat.cast_ne_zero.mpr (by omega)
  have hq2 : (2 : ℚ) ≤ (w.length : ℚ) := by exact_mod_cast hn
  have hq1 : (w.length : ℚ) - 1 ≠ 0 := by intro hz; linarith
  rw [sum_sq_dev]
  field_simp
  ring

/-- Reading one entry of the consistency column of a player group. -/
theorem consistency_series_getElem (rows : List MatchRow) (p : String) (i : ℕ)
    (hi : i < (playerMinutes rows p).length) :
    (consistency_series rows p)[i]? =
      some (form_consistency_last5 (playerMinutes rows p) i) := by
  unfold consistency_series
  rw [List.getElem?_map, List.getElem?_range hi]
  rfl

/-- C6: form_consistency_last5 carries the sample (ddof 1) dispersion
statistic of minutes_played over the rolling window: it is missing exactly
when the window holds fewer than 2 matches, which at a valid series
position happens exactly at the first match of the player; on windows of 2
or more it holds the sample variance, the square of the sample standard
deviation the source computes, pinned down by the identity n(n-1)v equals
n times the sum of squared minutes minus the squared sum over the
window. -/
theorem form_consistency_last5_claim (rows : List MatchRow) (p : String) (i : ℕ)
    (hi : i < (playerMinutes rows p).length) :
    (consistency_series rows p)[i]? =
      some (form_consistency_last5 (playerMinutes rows p) i) ∧
    (form_consistency_last5 (playerMinutes rows p) i = none ↔
      (rollingWindow (playerMinutes rows p) i).length < 2) ∧
    ((rollingWindow (playerMinutes rows p) i).length < 2 ↔ i = 0) ∧
    (∀ v, form_consistency_last5 (playerMinutes rows p) i = some v →
      v * (((rollingWindow (playerMinutes rows p) i).length : ℚ) *
          (((rollingWindow (playerMinutes rows p) i).length : ℚ) - 1)) =
        ((rollingWindow (playerMinutes rows p) i).length : ℚ) *
            ((rollingWindow (playerMinutes rows p) i).map (fun x => x ^ 2)).sum -
          ((rollingWindow (playerMinutes rows p) i).sum) ^ 2) := by
  refine ⟨consistency_series_getElem rows p i hi, ?_, ?_, fun v hv => sampleVar_identity _ v hv⟩
  · unfold form_consistency_last5 sampleVar
    split_ifs with h
    · simp [h]
    · simp [h]
  · rw [rollingWindow_length _ i hi]
    omega

/-- Witness for form_consistency_last5_claim at a concrete two-match
series. -/
theorem form_consistency_last5_claim_witness :
    1 < (playerMinutes [⟨"a", 1, 90, 0, 0⟩, ⟨"a", 2, 30, 0, 0⟩] "a").length ∧
    ((rollingWindow (playerMinutes [⟨"a", 1, 90, 0, 0⟩, ⟨"a", 2, 30, 0, 0⟩] "a") 1).length < 2 ↔
      (1 : ℕ) = 0) :=
  ⟨by decide,
    (form_consistency_last5_claim [⟨"a", 1, 90, 0, 0⟩, ⟨"a", 2, 30, 0, 0⟩] "a" 1 (by decide)).2.2.1⟩

/-- Every survivor of keep-first deduplication is an input row. -/
theorem pdDropDuplicatesBy_subset [DecidableEq β] (key : α → β) (l : List α) :
    ∀ a ∈ pdDropDuplicatesBy key l, a ∈ l := by
  induction l with
  | nil => intro a ha; exact absurd ha (List.not_mem_nil a)
  | cons x xs ih =>
    intro a ha
    rw [pdDropDuplicatesBy] at ha
    rcases List.mem_cons.mp ha with h | h
    · exact h ▸ List.mem_cons_self x xs
    · exact List.mem_cons_of_mem x (ih a (List.mem_of_mem_filter h))

/-- Keep-first deduplication leaves pairwise distinct keys. -/
theorem pdDropDuplicatesBy_pairwise [DecidableEq β] (key : α → β) (l : List α) :
    (pdDropDuplicatesBy key l).Pairwise (fun a b => key a ≠ key b) := by
  induction l with
  | nil => exact List.Pairwise.nil
  | cons x xs ih =>
    rw [pdDropDuplicatesBy]
    refine List.Pairwise.cons (fun y hy => ?_) (ih.filter _)
    have hf := List.of_mem_filter hy
    simp only [decide_eq_true_eq] at hf
    exact Ne.symm hf

/-- C7 counterexample: two raw injury rows agreeing on the
(player, injury_start, injury_end) triple but differing in position both
survive the whole-row deduplication, so the output holds two episodes with
the same triple, not at most one. -/
theorem episodes_dedup_not_triple_cex :
    (episodes [⟨some "a", none, some 0, some 1, some "DF"⟩,
               ⟨some "a", none, some 0, some 1, some "MF"⟩]).countP
      (fun e => decide (e.player_name_clean = "a" ∧ e.injured_since = 0 ∧ e.injured_until = 1)) = 2 := by
  decide

/-- C7 amended: the extractor deduplicates on the whole selected row, the
(player, name, injury_start, injury_end, position) tuple, so at most one
episode exists per distinct tuple while rows repeating a triple under a
different name or position are kept as separate episodes; rows missing the
player key (or either injury bound) are discarded, every output episode
originating in a raw row carrying all its fields; and the output is sorted
per player by injury_start ascending. -/
theorem episodes_extractor_amended (raws : List RawInjuryRow) :
    (episodes raws).Nodup ∧
    (∀ e ∈ episodes raws, ∃ r ∈ raws,
      r.player_name_clean = some e.player_name_clean ∧
      r.injured_since = some e.injured_since ∧
      r.injured_until = some e.injured_until ∧
      r.player_name = e.player_name ∧
      r.position_type = e.position_type) ∧
    (episodes raws).Pairwise (fun a b =>
      a.player_name_clean = b.player_name_clean → a.injured_since ≤ b.injured_since) := by
  refine ⟨?_, ?_, ?_⟩
  · unfold episodes
    exact ((List.perm_insertionSort epLe _).nodup_iff).mpr
      (List.Pairwise.imp (fun h => h) (pdDropDuplicatesBy_pairwise id _))
  · intro e he
    have h2 : e ∈ pdDropDuplicatesBy id _ :=
      (List.perm_insertionSort epLe _).mem_iff.mp he
    have h3 := pdDropDuplicatesBy_subset id _ e h2
    obtain ⟨r, hr, hfr⟩ := List.mem_filterMap.mp h3
    refine ⟨r, hr, ?_⟩
    cases hp : r.player_name_clean with
    | none => rw [hp] at hfr; exact Option.noConfusion hfr
    | some pn =>
      cases hs : r.injured_since with
      | none => rw [hp, hs] at hfr; exact Option.noConfusion hfr
      | some sv =>
        cases hu : r.injured_until with
        | none => rw [hp, hs, hu] at hfr; exact Option.noConfusion hfr
        | some uv =>
          rw [hp, hs, hu] at hfr
          rw [Option.some_inj] at hfr
          subst hfr
          exact ⟨rfl, rfl, rfl, rfl, rfl⟩
  · have hs : (episodes raws).Pairwise epLe := List.sorted_insertionSort epLe _
    refine hs.imp ?_
    intro a b hab heq
    rcases hab with h | ⟨_, h⟩
    · rw [heq] at h
      exact absurd h (lt_irrefl _)
    · exact h

/-- Witness for episodes_extractor_amended: two episodes of one player come
out deduplicated and sorted by injury start. -/
theorem episodes_extractor_amended_witness :
    (episodes [⟨some "a", none, some 5, some 9, none⟩,
               ⟨some "a", none, some 2, some 3, none⟩,
               ⟨some "a", none, some 5, some 9, none⟩]).Nodup :=
  (episodes_extractor_amended [⟨some "a", none, some 5, some 9, none⟩,
    ⟨some "a", none, some 2, some 3, none⟩, ⟨some "a", none, some 5, some 9, none⟩]).1

/-- Column presence after one compatibility step. -/
theorem hasCol_addMissing (v : ColValue) (acc : Frame) (c c' : String) :
    (addMissing v acc c).hasCol c' = (acc.hasCol c' || decide (c' = c)) := by
  unfold addMissing
  by_cases hc : c' = c
  · subst hc
    split_ifs with h
    · simp [h]
    · simp [Frame.hasCol, List.any_append]
  · split_ifs with h
    · simp [hc]
    · have hd : (decide (c = c')) = false := decide_eq_false (fun hh => hc hh.symm)
      simp [Frame.hasCol, List.any_append, hc, hd]

/-- Column presence after a whole compatibility fold. -/
theorem hasCol_foldl_addMissing (v : ColValue) (L : List String) (f : Frame) (c : String) :
    ((L.foldl (addMissing v) f).hasCol c = true) ↔ (f.hasCol c = true ∨ c ∈ L) := by
  induction L generalizing f with
  | nil => simp
  | cons x xs ih =>
    rw [List.foldl_cons, ih, hasCol_addMissing]
    simp [List.mem_cons, Bool.or_eq_true, decide_eq_true_eq, or_assoc]

/-- C8 counterexample: an input frame structurally missing the required
columns player_name, minutes_played, goals and assists is not rejected:
the load pass succeeds, silently appending the missing name column filled
with missing values and the missing numeric columns filled with zeros,
instead of failing fast with an error naming the missing columns. -/
theorem missing_columns_defaulted_cex :
    ensureCompatColumns ⟨[("player_name_clean", [ColValue.str "a"]), ("date", [ColValue.num 3])]⟩ =
      Except.ok ⟨[("player_name_clean", [ColValue.str "a"]), ("date", [ColValue.num 3]),
        ("player_name", [ColValue.null]),
        ("minutes_played", [ColValue.num 0]),
        ("goals", [ColValue.num 0]),
        ("assists", [ColValue.num 0])]⟩ := by
  rfl

/-- C8 amended: failures inside the core are local and silent, propagating
missing values (a missing date gives a missing season, a missing injury
bound gives a missing event period, nonpositive minutes give a missing
rate) rather than raising; and a structurally missing required column is
not batch-fatal either: the load pass always succeeds, substituting a
default-filled column (missing values for names, zeros for numeric
columns) so that every required column is present afterwards, with no
descriptive error ever produced. -/
theorem error_policy_amended (f : Frame) :
    (∃ g : Frame, ensureCompatColumns f = Except.ok g ∧
      ∀ c ∈ ["player_name", "player_name_clean", "minutes_played", "goals", "assists"],
        g.hasCol c = true) ∧
    get_season none = none ∧
    (∀ s e, get_event_period ⟨none, s, e⟩ = none) ∧
    (∀ numer mins : ℚ, mins ≤ 0 → rate_per90 numer mins = none) := by
  refine ⟨⟨_, rfl, ?_⟩, rfl, fun s e => by cases s <;> cases e <;> rfl,
    fun numer mins h => by rw [rate_per90, if_pos h]⟩
  intro c hc
  simp only [List.mem_cons, List.not_mem_nil, or_false] at hc
  rcases hc with rfl | rfl | rfl | rfl | rfl
  · exact (hasCol_foldl_addMissing _ _ _ _).mpr
      (Or.inl ((hasCol_foldl_addMissing _ _ _ _).mpr (Or.inr (by simp))))
  · exact (hasCol_foldl_addMissing _ _ _ _).mpr
      (Or.inl ((hasCol_foldl_addMissing _ _ _ _).mpr (Or.inr (by simp))))
  · exact (hasCol_foldl_addMissing _ _ _ _).mpr (Or.inr (by simp))
  · exact (hasCol_foldl_addMissing _ _ _ _).mpr (Or.inr (by simp))
  · exact (hasCol_foldl_addMissing _ _ _ _).mpr (Or.inr (by simp))

/-- Witness for error_policy_amended: a zero-minutes rate is missing, by
the propagation policy applied at a concrete input. -/
theorem error_policy_amended_witness :
    rate_per90 (2 : ℚ) (-3) = none :=
  (error_policy_amended ⟨[]⟩).2.2.2 2 (-3) (by norm_num)

/-- Restricting a (player, date)-sorted table to one player leaves a list
sorted by date. -/
theorem playerMatches_sorted_date (M : List MatchRow) (hM : M.Pairwise rowLe) (p : String) :
    (playerMatches M p).Pairwise (fun a b => a.date ≤ b.date) := by
  have h1 : (playerMatches M p).Pairwise rowLe := hM.filter _
  have h2 : ∀ r ∈ playerMatches M p, r.player = p := by
    intro r hr
    have hf := List.of_mem_filter hr
    simpa [decide_eq_true_eq] using hf
  refine List.Pairwise.imp_of_mem ?_ h1
  intro a b ha hb hab
  rcases hab with h | ⟨_, h⟩
  · rw [h2 a ha, h2 b hb] at h
    exact absurd h (lt_irrefl _)
  · exact h

/-- Rows of the pre window belong to the player and precede the injury. -/
theorem preWindow_mem (M : List MatchRow) (ep : EpisodeRec) :
    ∀ r ∈ preWindow M ep, r.player = ep.player_name_clean ∧ r.date < ep.injured_since := by
  intro r hr
  unfold preWindow listTail at hr
  have hr2 := List.mem_of_mem_drop hr
  have hr3 := List.mem_filter.mp hr2
  have hp := List.of_mem_filter hr3.1
  refine ⟨by simpa [decide_eq_true_eq] using hp, by simpa [decide_eq_true_eq] using hr3.2⟩

/-- Rows of the post window belong to the player and follow the injury. -/
theorem postWindow_mem (M : List MatchRow) (ep : EpisodeRec) :
    ∀ r ∈ postWindow M ep, r.player = ep.player_name_clean ∧ ep.injured_until < r.date := by
  intro r hr
  unfold postWindow at hr
  have hr2 := List.mem_of_mem_take hr
  have hr3 := List.mem_filter.mp hr2
  have hp := List.of_mem_filter hr3.1
  refine ⟨by simpa [decide_eq_true_eq] using hp, by simpa [decide_eq_true_eq] using hr3.2⟩

/-- An emitted episode row records the episode it came from. -/
theorem processEpisode_ep (M : List MatchRow) (ep : EpisodeRec) (row : EpisodeRow)
    (h : processEpisode M ep = some row) : row.ep = ep := by
  unfold processEpisode at h
  split_ifs at h with h1 h2
  rw [Option.some_inj] at h
  rw [← h]

/-- Emission of an episode row forces both windows non-empty. -/
theorem processEpisode_some_windows (M : List MatchRow) (ep : EpisodeRec) (row : EpisodeRow)
    (h : processEpisode M ep = some row) :
    preWindow M ep ≠ [] ∧ postWindow M ep ≠ [] := by
  unfold processEpisode at h
  split_ifs at h with h1 h2
  rcases not_or.mp h2 with ⟨hp, hq⟩
  refine ⟨fun h0 => hp ?_, fun h0 => hq ?_⟩
  · rw [h0]; rfl
  · rw [h0]; rfl

/-- Non-empty windows force emission, with the aggregates of the two
windows. -/
theorem processEpisode_some_of_windows (M : List MatchRow) (ep : EpisodeRec)
    (hpre : preWindow M ep ≠ []) (hpost : postWindow M ep ≠ []) :
    ∃ row, processEpisode M ep = some row ∧ row.ep = ep ∧
      row.pre = agg (preWindow M ep) ∧ row.post = agg (postWindow M ep) := by
  have hpm : ¬ ((playerMatches M ep.player_name_clean).isEmpty = true) := by
    intro h0
    apply hpre
    unfold preWindow
    rw [List.isEmpty_iff.mp h0]
    simp [listTail]
  have h2 : ¬ (((preWindow M ep).isEmpty = true) ∨ ((postWindow M ep).isEmpty = true)) := by
    rintro (h | h)
    · exact hpre (List.isEmpty_iff.mp h)
    · exact hpost (List.isEmpty_iff.mp h)
  refine ⟨{ ep := ep, pre := agg (preWindow M ep), post := agg (postWindow M ep),
            delta_minutes_mean :=
              optSub (agg (postWindow M ep)).minutes_mean (agg (preWindow M ep)).minutes_mean,
            delta_goals90_mean :=
              optSub (agg (postWindow M ep)).goals90_mean (agg (preWindow M ep)).goals90_mean,
            delta_assists90_mean :=
              optSub (agg (postWindow M ep)).assists90_mean (agg (preWindow M ep)).assists90_mean },
          ?_, rfl, rfl, rfl⟩
  unfold processEpisode
  rw [if_neg hpm, if_neg h2]

/-- C2: for an episode of the extracted list (both bounds present by
construction), an episode-level row for it exists exactly when both
windows are non-empty: an episode with an empty window is skipped
silently, neither emitted with missing fields nor reported as an error.
The pre window consists of matches of the player strictly before the
injury start and is the suffix, of length the smaller of 5 and the
qualifying count, of the chronologically sorted qualifying list, hence
the last up to 5 such matches; the post window consists of matches
strictly after the injury end and is the prefix of its qualifying list of
length the smaller of 5 and its count, hence the first up to 5. -/
theorem episode_windows_claim (raws : List RawMatchRow) (M : List MatchRow)
    (hM : M = buildMatches raws) (eps : List EpisodeRec) (ep : EpisodeRec)
    (hmem : ep ∈ eps) :
    ((∃ row ∈ episodeLevel M eps, row.ep = ep) ↔
      preWindow M ep ≠ [] ∧ postWindow M ep ≠ []) ∧
    (∀ r ∈ preWindow M ep, r.player = ep.player_name_clean ∧ r.date < ep.injured_since) ∧
    preWindow M ep <:+
      (playerMatches M ep.player_name_clean).filter
        (fun r => decide (r.date < ep.injured_since)) ∧
    (preWindow M ep).length =
      min 5 ((playerMatches M ep.player_name_clean).filter
        (fun r => decide (r.date < ep.injured_since))).length ∧
    (∀ r ∈ postWindow M ep, r.player = ep.player_name_clean ∧ ep.injured_until < r.date) ∧
    postWindow M ep <+:
      (playerMatches M ep.player_name_clean).filter
        (fun r => decide (ep.injured_until < r.date)) ∧
    (postWindow M ep).length =
      min 5 ((playerMatches M ep.player_name_clean).filter
        (fun r => decide (ep.injured_until < r.date))).length ∧
    (playerMatches M ep.player_name_clean).Pairwise (fun a b => a.date ≤ b.date) := by
  refine ⟨⟨?_, ?_⟩, preWindow_mem M ep, ?_, ?_, postWindow_mem M ep, ?_, ?_, ?_⟩
  · rintro ⟨row, hrow, hep⟩
    obtain ⟨ep2, hep2, hproc⟩ := List.mem_filterMap.mp hrow
    have he := processEpisode_ep M ep2 row hproc
    have heq : ep2 = ep := by rw [← he]; exact hep
    subst heq
    exact processEpisode_some_windows M ep2 row hproc
  · rintro ⟨hpre, hpost⟩
    obtain ⟨row, hproc, hep, _, _⟩ := processEpisode_some_of_windows M ep hpre hpost
    exact ⟨row, List.mem_filterMap.mpr ⟨ep, hmem, hproc⟩, hep⟩
  · exact List.drop_suffix _ _
  · unfold preWindow listTail
    rw [List.length_drop]
    omega
  · exact List.take_prefix _ _
  · unfold postWindow
    rw [List.length_take]
  · subst hM
    exact playerMatches_sorted_date _ (List.sorted_insertionSort rowLe _) _

/-- Witness for episode_windows_claim: one episode of one player with one
match before and one after the injury interval is emitted. -/
theorem episode_windows_claim_witness :
    ∃ row ∈ episodeLevel
        (buildMatches [⟨some "a", some 1, 90, 0, 0⟩, ⟨some "a", some 10, 80, 1, 0⟩])
        [⟨"a", none, 3, 5, none⟩],
      row.ep = (⟨"a", none, 3, 5, none⟩ : EpisodeRec) :=
  ((episode_windows_claim [⟨some "a", some 1, 90, 0, 0⟩, ⟨some "a", some 10, 80, 1, 0⟩] _ rfl
      [⟨"a", none, 3, 5, none⟩] ⟨"a", none, 3, 5, none⟩ (by decide)).1).mpr
    ⟨by decide, by decide⟩

/-- The mean of a non-empty list is its sum over its length. -/
theorem listMean_ne_nil (xs : List ℚ) (h : xs ≠ []) :
    listMean xs = some (xs.sum / xs.length) := by
  rw [listMean, if_neg (by simpa [List.isEmpty_iff] using h)]

/-- On a window whose matches all have nonpositive minutes, both per-90
means are missing. -/
theorem agg_rates_none (block : List MatchRow) (hz : ∀ r ∈ block, r.minutes_played ≤ 0) :
    (agg block).goals90_mean = none ∧ (agg block).assists90_mean = none := by
  have hfil : block.filter (fun r => decide (0 < r.minutes_played)) = [] :=
    List.filter_eq_nil_iff.mpr (fun r hr => by
      simp only [decide_eq_true_eq]
      exact not_lt.mpr (hz r hr))
  constructor
  · show meanSomes _ = _
    rw [meanSomes, filterMap_rate_column (fun r => r.goals), hfil]
    rfl
  · show meanSomes _ = _
    rw [meanSomes, filterMap_rate_column (fun r => r.assists), hfil]
    rfl

/-- C10: a match with zero (or negative) minutes still counts toward the
window match count and enters the minutes mean as a value over the full
window size, while the per-90 means run over only the positive-minutes
rows, excluding the missing rates; consequently an episode whose non-empty
pre window consists entirely of nonpositive-minutes matches is still
emitted, with missing per-90 means, only an empty window causing
exclusion. -/
theorem zero_minutes_window_claim (M : List MatchRow) (eps : List EpisodeRec)
    (ep : EpisodeRec) (hmem : ep ∈ eps)
    (hpre : preWindow M ep ≠ []) (hpost : postWindow M ep ≠ [])
    (hzero : ∀ r ∈ preWindow M ep, r.minutes_played ≤ 0) :
    (∀ block : List MatchRow,
      (agg block).n_matches = block.length ∧
      (block ≠ [] → (agg block).minutes_mean =
        some ((block.map (fun r => r.minutes_played)).sum / (block.length : ℚ))) ∧
      (agg block).goals90_mean =
        listMean ((block.filter (fun r => decide (0 < r.minutes_played))).map
          (fun r => r.goals / r.minutes_played * 90))) ∧
    (∃ row ∈ episodeLevel M eps, row.ep = ep ∧
      row.pre.n_matches = (preWindow M ep).length ∧
      row.pre.minutes_mean =
        some (((preWindow M ep).map (fun r => r.minutes_played)).sum /
          ((preWindow M ep).length : ℚ)) ∧
      row.pre.goals90_mean = none ∧
      row.pre.assists90_mean = none) := by
  constructor
  · intro block
    refine ⟨rfl, fun hb => ?_, ?_⟩
    · show listMean _ = _
      rw [listMean_ne_nil _ (by simpa using hb), List.length_map]
    · show meanSomes _ = _
      rw [meanSomes, filterMap_rate_column (fun r => r.goals)]
  · obtain ⟨row, hproc, hep, hpreagg, _⟩ := processEpisode_some_of_windows M ep hpre hpost
    refine ⟨row, List.mem_filterMap.mpr ⟨ep, hmem, hproc⟩, hep, ?_, ?_, ?_, ?_⟩
    · rw [hpreagg]; rfl
    · rw [hpreagg]
      show listMean _ = _
      rw [listMean_ne_nil _ (by simpa using hpre), List.length_map]
    · rw [hpreagg]
      exact (agg_rates_none _ hzero).1
    · rw [hpreagg]
      exact (agg_rates_none _ hzero).2

/-- Witness for zero_minutes_window_claim: an episode whose single
pre-injury match lasted 0 minutes is still emitted. -/
theorem zero_minutes_window_claim_witness :
    ∃ row ∈ episodeLevel [⟨"a", 1, 0, 2, 0⟩, ⟨"a", 10, 80, 1, 0⟩] [⟨"a", none, 3, 5, none⟩],
      row.ep = (⟨"a", none, 3, 5, none⟩ : EpisodeRec) ∧
      row.pre.n_matches =
        (preWindow [⟨"a", 1, 0, 2, 0⟩, ⟨"a", 10, 80, 1, 0⟩] ⟨"a", none, 3, 5, none⟩).length ∧
      row.pre.minutes_mean =
        some (((preWindow [⟨"a", 1, 0, 2, 0⟩, ⟨"a", 10, 80, 1, 0⟩]
            ⟨"a", none, 3, 5, none⟩).map (fun r => r.minutes_played)).sum /
          ((preWindow [⟨"a", 1, 0, 2, 0⟩, ⟨"a", 10, 80, 1, 0⟩]
            ⟨"a", none, 3, 5, none⟩).length : ℚ)) ∧
      row.pre.goals90_mean = none ∧
      row.pre.assists90_mean = none :=
  (zero_minutes_window_claim [⟨"a", 1, 0, 2, 0⟩, ⟨"a", 10, 80, 1, 0⟩] [⟨"a", none, 3, 5, none⟩]
    ⟨"a", none, 3, 5, none⟩ (by decide) (by decide) (by decide) (by decide)).2

/-- Strict chronological order on match rows. -/
def rowDateLt (a b : MatchRow) : Prop :=
  a.date < b.date

instance : IsAntisymm MatchRow rowDateLt where
  antisymm _ _ h1 h2 := absurd (lt_trans h1 h2) (lt_irrefl _)

/-- C9: rolling windows never mix two players and are invariant under
permutation of the raw input rows: every row of a player group carries
that player key, and for two inputs that are permutations of each other,
when the player has no two rows sharing a date (the tie-break caveat of
the claim), the player group and with it the whole workload and
consistency columns coincide exactly. -/
theorem rolling_perm_invariant_claim (rows1 rows2 : List MatchRow) (p : String)
    (hperm : rows1.Perm rows2)
    (hnodup : (rows1.filter (fun r => decide (r.player = p))).Pairwise
      (fun a b => a.date ≠ b.date)) :
    (∀ r ∈ playerSeries rows1 p, r.player = p) ∧
    playerSeries rows1 p = playerSeries rows2 p ∧
    workload_series rows1 p = workload_series rows2 p ∧
    consistency_series rows1 p = consistency_series rows2 p := by
  have hp1 : (playerSeries rows1 p).Perm (rows1.filter (fun r => decide (r.player = p))) :=
    (List.perm_insertionSort rowLe rows1).filter _
  have hp2 : (playerSeries rows2 p).Perm (rows2.filter (fun r => decide (r.player = p))) :=
    (List.perm_insertionSort rowLe rows2).filter _
  have hpf : (rows1.filter (fun r => decide (r.player = p))).Perm
      (rows2.filter (fun r => decide (r.player = p))) :=
    hperm.filter _
  have hp12 : (playerSeries rows1 p).Perm (playerSeries rows2 p) :=
    hp1.trans (hpf.trans hp2.symm)
  have hd1 : (playerSeries rows1 p).Pairwise (fun a b => a.date ≠ b.date) :=
    (hp1.pairwise_iff (fun {x y} h => Ne.symm h)).mpr hnodup
  have hd2 : (playerSeries rows2 p).Pairwise (fun a b => a.date ≠ b.date) :=
    (hp12.pairwise_iff (fun {x y} h => Ne.symm h)).mp hd1
  have hs1 : (playerSeries rows1 p).Pairwise (fun a b => a.date ≤ b.date) :=
    playerMatches_sorted_date (sortedRows rows1) (List.sorted_insertionSort rowLe rows1) p
  have hs2 : (playerSeries rows2 p).Pairwise (fun a b => a.date ≤ b.date) :=
    playerMatches_sorted_date (sortedRows rows2) (List.sorted_insertionSort rowLe rows2) p
  have hlt1 : (playerSeries rows1 p).Pairwise rowDateLt :=
    (hs1.and hd1).imp (fun h => lt_of_le_of_ne h.1 h.2)
  have hlt2 : (playerSeries rows2 p).Pairwise rowDateLt :=
    (hs2.and hd2).imp (fun h => lt_of_le_of_ne h.1 h.2)
  have heq : playerSeries rows1 p = playerSeries rows2 p :=
    List.eq_of_perm_of_sorted hp12 hlt1 hlt2
  refine ⟨?_, heq, ?_, ?_⟩
  · intro r hr
    have hf := List.of_mem_filter hr
    simpa [decide_eq_true_eq] using hf
  · unfold workload_series playerMinutes
    rw [heq]
  · unfold consistency_series playerMinutes
    rw [heq]

/-- Witness for rolling_perm_invariant_claim: swapping two rows of
different players leaves the first player group unchanged. -/
theorem rolling_perm_invariant_claim_witness :
    playerSeries [⟨"a", 1, 90, 0, 0⟩, ⟨"b", 2, 50, 0, 0⟩] "a" =
      playerSeries [⟨"b", 2, 50, 0, 0⟩, ⟨"a", 1, 90, 0, 0⟩] "a" :=
  (rolling_perm_invariant_claim [⟨"a", 1, 90, 0, 0⟩, ⟨"b", 2, 50, 0, 0⟩]
    [⟨"b", 2, 50, 0, 0⟩, ⟨"a", 1, 90, 0, 0⟩] "a"
    (List.Perm.swap (⟨"b", 2, 50, 0, 0⟩ : MatchRow) (⟨"a", 1, 90, 0, 0⟩ : MatchRow) [])
    (by decide)).2.1
